import Mathlib

/-!
Verification development for the process-control core of the `deet` debugger
(`src/CS_110L/proj-1/deet/src/inferior.rs` and `debugger.rs`), shallowly
embedded over `Nat`-modelled 64-bit machine words and explicit state.
-/

set_option maxHeartbeats 1000000

namespace Deet

/-- Machine word size in bytes (`size_of::<usize>()` on the x86-64 target). -/
def WORD_SIZE : Nat := 8


/-- One more than the largest 64-bit word value, i.e. `2 ^ 64`. -/
def U64_LIMIT : Nat := 2 ^ 64


/-- Bitwise complement of a `u64` value (the Rust `!x`), as xor with all-ones. -/
def u64not (x : Nat) : Nat := x ^^^ (U64_LIMIT - 1)


/-- Embedding of `align_addr_to_word` from `inferior.rs`:
`addr & (-(size_of::<usize>() as isize) as usize)`, where `-8 as usize` is
`2^64 - 8`. -/
def align_addr_to_word (addr : Nat) : Nat := addr &&& (U64_LIMIT - WORD_SIZE)


/-- Target memory as seen through word-granularity `ptrace` reads and writes:
a map from word-aligned addresses to stored word values. -/
def Mem : Type := Nat → Nat


/-- Well-formed memory: every stored word fits in 64 bits. -/
def MemWF (mem : Mem) : Prop := ∀ a, mem a < U64_LIMIT


/-- Result of `Inferior::write_byte`: the updated target memory together with
the original byte that was returned. -/
structure WriteByteResult where
  mem : Mem
  orig_byte : Nat


/-- Embedding of `Inferior::write_byte` from `inferior.rs`: align the address
down to its containing word, read that word, extract the original byte at the
byte offset, splice in the new byte, write the whole word back, and return the
original byte. -/
def write_byte (mem : Mem) (addr : Nat) (val : Nat) : WriteByteResult :=
  let aligned_addr := align_addr_to_word addr
  let byte_offset := addr - aligned_addr
  let word := mem aligned_addr
  let orig_byte := (word >>> (8 * byte_offset)) &&& 0xff
  let masked_word := word &&& u64not (0xff <<< (8 * byte_offset))
  let updated_word := masked_word ||| (val <<< (8 * byte_offset))
  { mem := fun a => if a = aligned_addr then updated_word else mem a,
    orig_byte := orig_byte }


/-- The byte stored at `addr`, observed through a word read at the containing
aligned address (the controller's `read_word` followed by byte extraction). -/
def byte_at (mem : Mem) (addr : Nat) : Nat :=
  (mem (align_addr_to_word addr) >>> (8 * (addr - align_addr_to_word addr))) &&& 0xff


/-- Signals the model distinguishes; `SIGTRAP` is the trap signal checked by
`Inferior::new`, the others stand for arbitrary different signals. -/
inductive Signal
  | SIGTRAP
  | SIGSEGV
  | SIGINT
deriving DecidableEq


/-- Embedding of the `Status` enum from `inferior.rs`. -/
inductive Status
  | Stopped (signal : Signal) (rip : Nat)
  | Exited (code : Int)
  | Signaled (signal : Signal)
deriving DecidableEq


/-- Terminal statuses are `Exited` and `Signaled`; `Stopped` permits further
operations. -/
def Status.isTerminal : Status → Bool
  | .Stopped _ _ => false
  | .Exited _ => true
  | .Signaled _ => true


/-- Embedding of the `Breakpoint` struct from `debugger.rs`. -/
structure Breakpoint where
  addr : Nat
  orig_byte : Nat
deriving DecidableEq


/-- The breakpoint table `HashMap<usize, Breakpoint>`, modelled as an
association list. -/
abbrev BpMap : Type := List (Nat × Breakpoint)


/-- `HashMap::get` on the table model. -/
def bpGet : BpMap → Nat → Option Breakpoint
  | [], _ => none
  | (k, v) :: rest, a => if k = a then some v else bpGet rest a


/-- `HashMap::insert` on the table model: replace the value when the key is
already present (addresses are unique keys), otherwise add a new entry. -/
def bpInsert (m : BpMap) (k : Nat) (v : Breakpoint) : BpMap :=
  if (bpGet m k).isSome then
    m.map (fun p => if p.1 = k then (k, v) else p)
  else (k, v) :: m


/-- Embedding of `Inferior::check_at_breakpoint`. -/
def check_at_breakpoint (rip : Nat) (breakpoints : BpMap) : Bool :=
  (bpGet breakpoints rip).isSome


/-- One ptrace-level action issued by `Inferior::continue_exec`, in program
order. -/
inductive TraceEvent
  | write_byte (addr : Nat) (val : Nat)
  | set_rip (rip : Nat)
  | step
  | cont
deriving DecidableEq


/-- Embedding of `Inferior::continue_exec` from `inferior.rs`, as the sequence
of ptrace actions it issues together with the status it returns. `rip` is the
current instruction pointer read by `get_rip`; `step_status` and `cont_status`
are the wait statuses the OS reports after `ptrace::step` and `ptrace::cont`.
The guard `check_at_breakpoint (rip - 1)` followed by the `unwrap`ped lookup is
rendered as one match on the lookup. -/
def continue_exec (rip : Nat) (breakpoints : BpMap)
    (step_status cont_status : Status) : List TraceEvent × Status :=
  match bpGet breakpoints (rip - 1) with
  | some breakpoint =>
    let orig_byte := breakpoint.orig_byte
    let pre := [TraceEvent.write_byte (rip - 1) orig_byte,
                TraceEvent.set_rip (rip - 1), TraceEvent.step]
    match step_status with
    | Status.Stopped _ _ =>
      (pre ++ [TraceEvent.write_byte (rip - 1) 0xcc, TraceEvent.cont], cont_status)
    | Status.Exited code => (pre, Status.Exited code)
    | Status.Signaled signal => (pre, Status.Signaled signal)
  | none => ([TraceEvent.cont], cont_status)


/-- Outcome of a `waitpid` call as matched by `Inferior::new` (the stopping
signal is the only payload the match inspects). -/
inductive WaitStatus
  | Stopped (signal : Signal)
  | Exited (code : Int)
  | Signaled (signal : Signal)
deriving DecidableEq


/-- The install loop in `Inferior::new`: for every table entry, patch the trap
opcode `0xcc` into the target and overwrite the entry with the recorded
original byte, threading the target memory left to right. -/
def install_breakpoints (mem : Mem) (bps : BpMap) : Mem × BpMap :=
  match bps with
  | [] => (mem, [])
  | (addr, _) :: rest =>
    let r := write_byte mem addr 0xcc
    let tail := install_breakpoints r.mem rest
    (tail.1, (addr, { addr := addr, orig_byte := r.orig_byte }) :: tail.2)


/-- Embedding of `Inferior::new` from `inferior.rs`: `spawn_ok` models
`Command::spawn` succeeding and `first_wait` the result of the first blocking
`waitpid` (`none` = `Err`). A process is returned only on a clean `SIGTRAP`
stop, after the install loop has run over the whole breakpoint table. -/
def inferior_new (spawn_ok : Bool) (first_wait : Option WaitStatus)
    (mem : Mem) (breakpoints : BpMap) : Option (Mem × BpMap) :=
  if spawn_ok then
    match first_wait with
    | some (WaitStatus.Stopped Signal.SIGTRAP) =>
      some (install_breakpoints mem breakpoints)
    | _ => none
  else none


/-- One emitted backtrace entry: the resolved function name and source line
printed by `print_backtrace` for one frame. -/
structure Frame where
  func : String
  line : Nat
deriving DecidableEq


/-- Result of the backtrace walk. -/
inductive BtResult
  | ok (frames : List Frame)
  | memErr
  | panicked
  | spin
deriving DecidableEq


/-- Cons a frame onto a successful walk, passing failures through. -/
def btCons (f : Frame) : BtResult → BtResult
  | .ok frames => .ok (f :: frames)
  | r => r


/-- Embedding of `Inferior::print_backtrace` from `inferior.rs`. `get_line` and
`get_func` are the Symbol Resolver lookups (`DwarfData::get_line_from_addr` /
`get_function_from_addr`, both `unwrap`ped by the source, so `none` is a
panic), `read_mem` is `ptrace::read` (`?`-propagated, so `none` aborts with an
error), and `fuel` bounds the source's `while true` loop (`spin` = loop did
not finish within the bound). -/
def print_backtrace (get_line : Nat → Option Nat) (get_func : Nat → Option String)
    (read_mem : Nat → Option Nat) : Nat → Nat → Nat → BtResult
  | 0, _, _ => .spin
  | fuel + 1, instruction_ptr, base_ptr =>
    match get_line instruction_ptr, get_func instruction_ptr with
    | some line, some func =>
      if func = "main" then .ok [⟨func, line⟩]
      else
        match read_mem (base_ptr + 8) with
        | none => .memErr
        | some ip2 =>
          match read_mem base_ptr with
          | none => .memErr
          | some bp2 =>
            btCons ⟨func, line⟩ (print_backtrace get_line get_func read_mem fuel ip2 bp2)
    | _, _ => .panicked


/-- Whether the Session currently tracks an inferior (`self.inferior`), and if
so whether `Inferior::alive` reports it alive. -/
inductive InferiorTracking
  | noInferior
  | tracked (alive : Bool)
deriving DecidableEq


/-- The session state the claims are about: the tracked inferior, the target
memory behind it, and the breakpoint table. -/
structure SessionState where
  inferior : InferiorTracking
  mem : Mem
  breakpoints : BpMap


/-- The body of the Breakpoint arm of `Debugger::run` once the specification
has been resolved to a raw `location`: with a tracked live inferior, patch
`0xcc` immediately and insert the entry with the returned original byte; with
a tracked dead inferior, nothing happens; with no tracked inferior, insert the
entry with the sentinel original byte `0`. -/
def breakpoint_arm (location : Nat) (st : SessionState) : SessionState :=
  match st.inferior with
  | .tracked true =>
    let r := write_byte st.mem location 0xcc
    { st with
      mem := r.mem,
      breakpoints := bpInsert st.breakpoints location ⟨location, r.orig_byte⟩ }
  | .tracked false => st
  | .noInferior =>
    { st with breakpoints := bpInsert st.breakpoints location ⟨location, 0⟩ }


/-- How a command arm of `Debugger::run` finishes: normally, with a printed
report, with a Rust panic, or never (`hung`). -/
inductive ArmOutcome
  | ok
  | reported
  | panicked
  | hung
deriving DecidableEq


/-- The Continue arm of `Debugger::run`: `self.inferior.as_mut().unwrap()`
panics when no inferior is tracked; a tracked dead inferior is reported as
"Inferior process is not running"; a live one proceeds. -/
def continue_arm (inferior : InferiorTracking) : ArmOutcome :=
  match inferior with
  | .noInferior => .panicked
  | .tracked true => .ok
  | .tracked false => .reported


/-- The Backtrace arm of `Debugger::run`: `unwrap` on a missing inferior
panics; on a dead inferior the `getregs` `unwrap` inside `print_backtrace`
panics; otherwise the walk result goes through `.expect("No trace")`, which
panics on any error. -/
def backtrace_arm (inferior : InferiorTracking) (bt : BtResult) : ArmOutcome :=
  match inferior with
  | .noInferior => .panicked
  | .tracked false => .panicked
  | .tracked true =>
    match bt with
    | .ok _ => .ok
    | .memErr => .panicked
    | .panicked => .panicked
    | .spin => .hung


/-- Embedding of `Debugger::kill_inferior`: when `Inferior::kill` returns `Ok`
the tracked inferior is set to `None`; on `Err` only a message is printed and
nothing changes. -/
def kill_inferior (st : SessionState) (kill_ok : Bool) : SessionState :=
  if kill_ok then { st with inferior := .noInferior } else st


/-- A classified breakpoint specification (`Point` in `debugger.rs`). -/
inductive Point
  | Line (line : Nat)
  | Func (name : List Char)
  | Addr (addr : Nat)
deriving DecidableEq


/-- Value of a decimal digit character, `none` otherwise. -/
def decimal_digit_val (c : Char) : Option Nat :=
  if '0'.toNat ≤ c.toNat ∧ c.toNat ≤ '9'.toNat then some (c.toNat - '0'.toNat) else none


/-- Rust `str::parse::<usize>` over the spec's characters: all-digit,
non-empty strings parse. -/
def parse_usize (cs : List Char) : Option Nat :=
  match cs with
  | [] => none
  | _ => cs.foldl
      (fun acc c => acc.bind fun n => (decimal_digit_val c).map fun d => 10 * n + d)
      (some 0)


/-- Value of a hexadecimal digit character, `none` otherwise. -/
def hex_digit_val (c : Char) : Option Nat :=
  if '0'.toNat ≤ c.toNat ∧ c.toNat ≤ '9'.toNat then some (c.toNat - '0'.toNat)
  else if 'a'.toNat ≤ c.toNat ∧ c.toNat ≤ 'f'.toNat then some (c.toNat - 'a'.toNat + 10)
  else if 'A'.toNat ≤ c.toNat ∧ c.toNat ≤ 'F'.toNat then some (c.toNat - 'F'.toNat + 10)
  else none


/-- Embedding of `parse_address` in `debugger.rs`: strip a leading `0x`
(case-insensitive) and parse the rest as hexadecimal. -/
def parse_address (cs : List Char) : Option Nat :=
  let rest := match cs with
    | c0 :: c1 :: tail => if c0 = '0' ∧ (c1 = 'x' ∨ c1 = 'X') then tail else cs
    | _ => cs
  match rest with
  | [] => none
  | _ => rest.foldl
      (fun acc c => acc.bind fun n => (hex_digit_val c).map fun d => 16 * n + d)
      (some 0)


/-- Embedding of `type_breakpoint` in `debugger.rs`: a leading `*` means a
literal hex address (a bad literal panics via `unwrap`, modelled as `none`),
an unsigned integer is a line number, anything else a function name. -/
def type_breakpoint (cs : List Char) : Option Point :=
  match cs with
  | '*' :: rest => (parse_address rest).map Point.Addr
  | _ =>
    match parse_usize cs with
    | some n => some (Point.Line n)
    | none => some (Point.Func cs)


/-- Resolution of a classified spec in the Breakpoint arm of `Debugger::run`:
`get_addr_for_line` / `get_addr_for_function` delegate to the Symbol Resolver
and are `unwrap`ped by the source. -/
def resolve_point (addr_for_line : Nat → Option Nat)
    (addr_for_func : List Char → Option Nat) : Point → Option Nat
  | .Line n => addr_for_line n
  | .Func s => addr_for_func s
  | .Addr a => some a


/-- How the whole Breakpoint command ends: with the state produced by
`breakpoint_arm`, or in a panic from an `unwrap` during classification or
resolution. -/
inductive BreakpointCmdResult
  | proceeded (st : SessionState)
  | panicked


/-- The full Breakpoint arm of `Debugger::run`: classify the spec, resolve it
to an address (`unwrap`), then run the table/patch logic. -/
def breakpoint_cmd (addr_for_line : Nat → Option Nat)
    (addr_for_func : List Char → Option Nat) (spec : List Char)
    (st : SessionState) : BreakpointCmdResult :=
  match type_breakpoint spec with
  | none => .panicked
  | some p =>
    match resolve_point addr_for_line addr_for_func p with
    | none => .panicked
    | some location => .proceeded (breakpoint_arm location st)


lemma align_eq_shift (addr : Nat) (h : addr < U64_LIMIT) :
    align_addr_to_word addr = (addr >>> 3) <<< 3 := by
  have h64 : addr < 2 ^ 64 := h
  apply Nat.eq_of_testBit_eq
  intro i
  have h8 : (U64_LIMIT - WORD_SIZE : Nat) = (2 ^ 61 - 1) <<< 3 := by
    norm_num [U64_LIMIT, WORD_SIZE, Nat.shiftLeft_eq]
  rw [align_addr_to_word, h8]
  simp only [Nat.testBit_and, Nat.testBit_shiftLeft, Nat.testBit_shiftRight,
    Nat.testBit_two_pow_sub_one]
  by_cases h3 : 3 ≤ i
  · have hi : 3 + (i - 3) = i := by omega
    by_cases hlt : i < 64
    · simp [ge_iff_le, h3, hi, show i - 3 < 61 by omega]
    · have : addr.testBit i = false :=
        Nat.testBit_lt_two_pow (lt_of_lt_of_le h64 (Nat.pow_le_pow_right (by norm_num) (by omega)))
      simp [ge_iff_le, h3, hi, this, show ¬ i - 3 < 61 by omega]
  · simp [ge_iff_le, h3]


lemma align_spec (addr : Nat) (h : addr < U64_LIMIT) :
    align_addr_to_word addr = addr - addr % 8 := by
  rw [align_eq_shift addr h, Nat.shiftLeft_eq, Nat.shiftRight_eq_div_pow]
  have : (2 : Nat) ^ 3 = 8 := by norm_num
  rw [this]
  omega


lemma offset_spec (addr : Nat) (h : addr < U64_LIMIT) :
    addr - align_addr_to_word addr = addr % 8 := by
  rw [align_spec addr h]
  omega


/-- Characteristic bit-level description of the spliced word built by
`write_byte`: the byte at offset `k` comes from `v`, every other bit is
unchanged. -/
lemma testBit_splice (w v k : Nat) (hw : w < U64_LIMIT) (hv : v < 2 ^ 8)
    (hk : k + 8 ≤ 64) (j : Nat) :
    ((w &&& u64not (0xff <<< k)) ||| (v <<< k)).testBit j =
      if k ≤ j ∧ j < k + 8 then v.testBit (j - k) else w.testBit j := by
  have hff : (0xff : Nat) = 2 ^ 8 - 1 := by norm_num
  have hones : (U64_LIMIT - 1 : Nat) = 2 ^ 64 - 1 := rfl
  rw [u64not, hff, hones]
  simp only [Nat.testBit_or, Nat.testBit_and, Nat.testBit_xor, Nat.testBit_shiftLeft,
    Nat.testBit_two_pow_sub_one]
  by_cases hin : k ≤ j ∧ j < k + 8
  · obtain ⟨h1, h2⟩ := hin
    have h64 : j < 64 := by omega
    simp [ge_iff_le, h1, h2, h64, show j - k < 8 by omega]
  · rw [if_neg hin]
    by_cases hjk : j < k
    · have h64 : j < 64 := by omega
      simp [ge_iff_le, show ¬ k ≤ j by omega, h64]
    · have hge : k + 8 ≤ j := by omega
      have hvb : v.testBit (j - k) = false :=
        Nat.testBit_lt_two_pow
          (lt_of_lt_of_le hv (Nat.pow_le_pow_right (by norm_num) (by omega)))
      by_cases h64 : j < 64
      · simp [ge_iff_le, show k ≤ j by omega, show ¬ j - k < 8 by omega, h64, hvb]
      · have hwb : w.testBit j = false :=
          Nat.testBit_lt_two_pow
            (lt_of_lt_of_le hw (Nat.pow_le_pow_right (by norm_num) (by omega)))
        simp [ge_iff_le, show k ≤ j by omega, show ¬ j - k < 8 by omega, h64, hvb, hwb]


lemma splice_lt (w v k : Nat) (hw : w < U64_LIMIT) (hv : v < 2 ^ 8)
    (hk : k + 8 ≤ 64) :
    ((w &&& u64not (0xff <<< k)) ||| (v <<< k)) < U64_LIMIT := by
  show _ < 2 ^ 64
  apply Nat.lt_pow_two_of_testBit
  intro i hi
  rw [testBit_splice w v k hw hv hk i, if_neg (by omega)]
  exact Nat.testBit_lt_two_pow
    (lt_of_lt_of_le hw (Nat.pow_le_pow_right (by norm_num) hi))


lemma splice_get (w v k : Nat) (hw : w < U64_LIMIT) (hv : v < 2 ^ 8)
    (hk : k + 8 ≤ 64) :
    (((w &&& u64not (0xff <<< k)) ||| (v <<< k)) >>> k) &&& 0xff = v := by
  apply Nat.eq_of_testBit_eq
  intro i
  have hffbit : ∀ m, (0xff : Nat).testBit m = decide (m < 8) := fun m => by
    rw [show (0xff : Nat) = 2 ^ 8 - 1 by norm_num, Nat.testBit_two_pow_sub_one]
  simp only [Nat.testBit_and, Nat.testBit_shiftRight, hffbit]
  rw [testBit_splice w v k hw hv hk (k + i)]
  by_cases hi : i < 8
  · rw [if_pos (by omega)]
    simp [hi, show k + i - k = i by omega]
  · rw [if_neg (by omega)]
    have : v.testBit i = false :=
      Nat.testBit_lt_two_pow
        (lt_of_lt_of_le hv (Nat.pow_le_pow_right (by norm_num) (by omega)))
    simp [hi, this]


lemma splice_frame (w v k j : Nat) (hw : w < U64_LIMIT) (hv : v < 2 ^ 8)
    (hk : k + 8 ≤ 64) (_hj : j + 8 ≤ 64) (hne : j ≠ k)
    (hkm : k % 8 = 0) (hjm : j % 8 = 0) :
    (((w &&& u64not (0xff <<< k)) ||| (v <<< k)) >>> j) &&& 0xff
      = (w >>> j) &&& 0xff := by
  apply Nat.eq_of_testBit_eq
  intro i
  have hffbit : ∀ m, (0xff : Nat).testBit m = decide (m < 8) := fun m => by
    rw [show (0xff : Nat) = 2 ^ 8 - 1 by norm_num, Nat.testBit_two_pow_sub_one]
  simp only [Nat.testBit_and, Nat.testBit_shiftRight, hffbit]
  rw [testBit_splice w v k hw hv hk (j + i)]
  by_cases hi : i < 8
  · rw [if_neg (by omega)]
  · simp [hi]


lemma splice_restore (w v k : Nat) (hw : w < U64_LIMIT) (hv : v < 2 ^ 8)
    (hk : k + 8 ≤ 64) :
    ((((w &&& u64not (0xff <<< k)) ||| (v <<< k)) &&& u64not (0xff <<< k)) |||
        (((w >>> k) &&& 0xff) <<< k)) = w := by
  have horig : ((w >>> k) &&& 0xff) < 2 ^ 8 :=
    lt_of_le_of_lt Nat.and_le_right (by norm_num)
  have hup : ((w &&& u64not (0xff <<< k)) ||| (v <<< k)) < U64_LIMIT :=
    splice_lt w v k hw hv hk
  apply Nat.eq_of_testBit_eq
  intro j
  rw [testBit_splice _ _ k hup horig hk j]
  by_cases hin : k ≤ j ∧ j < k + 8
  · rw [if_pos hin]
    have hff : (0xff : Nat) = 2 ^ 8 - 1 := by norm_num
    rw [hff]
    simp only [Nat.testBit_and, Nat.testBit_shiftRight, Nat.testBit_two_pow_sub_one]
    have : k + (j - k) = j := by omega
    simp [this, show j - k < 8 by omega]
  · rw [if_neg hin]
    rw [testBit_splice w v k hw hv hk j, if_neg hin]


lemma write_byte_mem_apply (mem : Mem) (addr v a : Nat) :
    (write_byte mem addr v).mem a =
      if a = align_addr_to_word addr then
        ((mem (align_addr_to_word addr) &&&
            u64not (0xff <<< (8 * (addr - align_addr_to_word addr)))) |||
          (v <<< (8 * (addr - align_addr_to_word addr))))
      else mem a := rfl


lemma write_byte_orig (mem : Mem) (addr v : Nat) :
    (write_byte mem addr v).orig_byte = byte_at mem addr := rfl


lemma offset_koff (addr : Nat) (h : addr < U64_LIMIT) :
    8 * (addr - align_addr_to_word addr) + 8 ≤ 64 := by
  rw [offset_spec addr h]
  omega


lemma offset_mod8 (addr : Nat) (h : addr < U64_LIMIT) :
    (8 * (addr - align_addr_to_word addr)) % 8 = 0 := by
  rw [offset_spec addr h]
  omega


lemma write_byte_WF (mem : Mem) (addr v : Nat) (hwf : MemWF mem)
    (h : addr < U64_LIMIT) (hv : v < 2 ^ 8) :
    MemWF (write_byte mem addr v).mem := by
  intro a
  rw [write_byte_mem_apply]
  split
  · exact splice_lt _ _ _ (hwf _) hv (offset_koff addr h)
  · exact hwf a


lemma write_byte_get (mem : Mem) (addr v : Nat) (hwf : MemWF mem)
    (h : addr < U64_LIMIT) (hv : v < 2 ^ 8) :
    byte_at (write_byte mem addr v).mem addr = v := by
  rw [byte_at, write_byte_mem_apply, if_pos rfl]
  exact splice_get _ _ _ (hwf _) hv (offset_koff addr h)


lemma write_byte_frame (mem : Mem) (addr addr2 v : Nat) (hwf : MemWF mem)
    (h : addr < U64_LIMIT) (h2 : addr2 < U64_LIMIT) (hv : v < 2 ^ 8)
    (hne : addr2 ≠ addr) :
    byte_at (write_byte mem addr v).mem addr2 = byte_at mem addr2 := by
  rw [byte_at, byte_at, write_byte_mem_apply]
  by_cases ha : align_addr_to_word addr2 = align_addr_to_word addr
  · rw [if_pos ha, ha]
    have hoff : addr2 - align_addr_to_word addr2 ≠ addr - align_addr_to_word addr := by
      intro hcon
      apply hne
      have e1 := align_spec addr h
      have e2 := align_spec addr2 h2
      have e3 := ha
      rw [e1, e2] at e3
      rw [offset_spec addr h, offset_spec addr2 h2] at hcon
      omega
    have hj : 8 * (addr2 - align_addr_to_word addr) + 8 ≤ 64 := by
      rw [← ha]
      exact offset_koff addr2 h2
    have hjm : (8 * (addr2 - align_addr_to_word addr)) % 8 = 0 := by
      rw [← ha]
      exact offset_mod8 addr2 h2
    have hne8 : 8 * (addr2 - align_addr_to_word addr) ≠ 8 * (addr - align_addr_to_word addr) := by
      rw [← ha]
      intro hcon
      exact hoff (by omega)
    exact splice_frame _ _ _ _ (hwf _) hv (offset_koff addr h) hj hne8
      (offset_mod8 addr h) hjm
  · rw [if_neg ha]


lemma write_byte_restore (mem : Mem) (addr v : Nat) (hwf : MemWF mem)
    (h : addr < U64_LIMIT) (hv : v < 2 ^ 8) :
    (write_byte (write_byte mem addr v).mem addr
        ((write_byte mem addr v).orig_byte)).mem = mem := by
  funext a
  rw [write_byte_mem_apply]
  by_cases ha : a = align_addr_to_word addr
  · rw [if_pos ha, ha]
    rw [write_byte_mem_apply, if_pos rfl, write_byte_orig, byte_at]
    exact splice_restore _ _ _ (hwf _) hv (offset_koff addr h)
  · rw [if_neg ha, write_byte_mem_apply, if_neg ha]


/-- C2: `write_byte` aligns the address down to its containing word, returns
the original byte at the byte offset within that word, and writes back the
word with only that byte replaced; a `write_byte` of `v` followed by a read of
the same address yields `v`, and a second `write_byte` with the byte returned
by the first restores the original memory exactly (round-trip law). -/
theorem write_byte_round_trip (mem : Mem) (addr v : Nat) (hwf : MemWF mem)
    (haddr : addr < U64_LIMIT) (hv : v < 2 ^ 8) :
    align_addr_to_word addr = addr - addr % 8 ∧
    (write_byte mem addr v).orig_byte = byte_at mem addr ∧
    byte_at (write_byte mem addr v).mem addr = v ∧
    (∀ addr2, addr2 < U64_LIMIT → addr2 ≠ addr →
      byte_at (write_byte mem addr v).mem addr2 = byte_at mem addr2) ∧
    (write_byte (write_byte mem addr v).mem addr
        ((write_byte mem addr v).orig_byte)).mem = mem :=
  ⟨align_spec addr haddr,
   write_byte_orig mem addr v,
   write_byte_get mem addr v hwf haddr hv,
   fun addr2 h2 hne => write_byte_frame mem addr addr2 v hwf haddr h2 hv hne,
   write_byte_restore mem addr v hwf haddr hv⟩


/-- Witness for C2 at a concrete memory, address and value. -/
theorem write_byte_round_trip_witness :
    MemWF (fun _ => 0x1122334455667788) ∧ (12 : Nat) < U64_LIMIT ∧ (0xcc : Nat) < 2 ^ 8 ∧
    (align_addr_to_word 12 = 12 - 12 % 8 ∧
     (write_byte (fun _ => 0x1122334455667788) 12 0xcc).orig_byte =
        byte_at (fun _ => 0x1122334455667788) 12 ∧
     byte_at (write_byte (fun _ => 0x1122334455667788) 12 0xcc).mem 12 = 0xcc ∧
     (∀ addr2, addr2 < U64_LIMIT → addr2 ≠ 12 →
       byte_at (write_byte (fun _ => 0x1122334455667788) 12 0xcc).mem addr2 =
         byte_at (fun _ => 0x1122334455667788) addr2) ∧
     (write_byte (write_byte (fun _ => 0x1122334455667788) 12 0xcc).mem 12
        ((write_byte (fun _ => 0x1122334455667788) 12 0xcc).orig_byte)).mem =
       (fun _ => 0x1122334455667788)) :=
  ⟨by intro a; show (0x1122334455667788 : Nat) < U64_LIMIT; decide,
   by decide, by decide,
   write_byte_round_trip (fun _ => 0x1122334455667788) 12 0xcc
     (by intro a; show (0x1122334455667788 : Nat) < U64_LIMIT; decide)
     (by decide) (by decide)⟩


/-- C1: on a resume with `rip - 1` an installed breakpoint, `continue_exec`
performs exactly: restore the saved original byte, rewind the instruction
pointer, single-step, and — unless the step status is terminal — re-install
the trap byte `0xcc` before the normal continue, returning that continue's
status; a terminal step status is returned immediately with no re-install. -/
theorem continue_exec_protocol (rip : Nat) (breakpoints : BpMap)
    (bp : Breakpoint) (step_status cont_status : Status)
    (hbp : bpGet breakpoints (rip - 1) = some bp) :
    (step_status.isTerminal = false →
      continue_exec rip breakpoints step_status cont_status =
        ([TraceEvent.write_byte (rip - 1) bp.orig_byte, TraceEvent.set_rip (rip - 1),
          TraceEvent.step, TraceEvent.write_byte (rip - 1) 0xcc, TraceEvent.cont],
         cont_status)) ∧
    (step_status.isTerminal = true →
      continue_exec rip breakpoints step_status cont_status =
        ([TraceEvent.write_byte (rip - 1) bp.orig_byte, TraceEvent.set_rip (rip - 1),
          TraceEvent.step], step_status)) := by
  constructor
  · intro hterm
    cases step_status with
    | Stopped s r => simp [continue_exec, hbp]
    | Exited c => simp [Status.isTerminal] at hterm
    | Signaled s => simp [Status.isTerminal] at hterm
  · intro hterm
    cases step_status with
    | Stopped s r => simp [Status.isTerminal] at hterm
    | Exited c => simp [continue_exec, hbp]
    | Signaled s => simp [continue_exec, hbp]


/-- Witness for C1 at a concrete table, instruction pointer and statuses,
covering both the non-terminal and the terminal step outcome. -/
theorem continue_exec_protocol_witness :
    bpGet [(9, ⟨9, 0x55⟩)] (10 - 1) = some ⟨9, 0x55⟩ ∧
    continue_exec 10 [(9, ⟨9, 0x55⟩)] (Status.Stopped Signal.SIGINT 10) (Status.Exited 0) =
      ([TraceEvent.write_byte 9 0x55, TraceEvent.set_rip 9, TraceEvent.step,
        TraceEvent.write_byte 9 0xcc, TraceEvent.cont], Status.Exited 0) ∧
    continue_exec 10 [(9, ⟨9, 0x55⟩)] (Status.Exited 7) (Status.Exited 0) =
      ([TraceEvent.write_byte 9 0x55, TraceEvent.set_rip 9, TraceEvent.step],
       Status.Exited 7) :=
  ⟨by decide,
   (continue_exec_protocol 10 [(9, ⟨9, 0x55⟩)] ⟨9, 0x55⟩
      (Status.Stopped Signal.SIGINT 10) (Status.Exited 0) (by decide)).1 (by decide),
   (continue_exec_protocol 10 [(9, ⟨9, 0x55⟩)] ⟨9, 0x55⟩
      (Status.Exited 7) (Status.Exited 0) (by decide)).2 (by decide)⟩


lemma bpGet_isSome_mem (m : BpMap) (a : Nat) (h : (bpGet m a).isSome) :
    a ∈ m.map Prod.fst := by
  induction m with
  | nil => simp [bpGet] at h
  | cons hd tl ih =>
    obtain ⟨k, v⟩ := hd
    by_cases hk : k = a
    · simp [hk]
    · simp only [bpGet, if_neg hk] at h
      simp [ih h]


lemma install_breakpoints_WF (mem : Mem) (bps : BpMap) (hwf : MemWF mem)
    (hlt : ∀ p ∈ bps, p.1 < U64_LIMIT) :
    MemWF (install_breakpoints mem bps).1 := by
  induction bps generalizing mem with
  | nil => exact hwf
  | cons hd tl ih =>
    obtain ⟨addr, bp0⟩ := hd
    simp only [install_breakpoints]
    exact ih _ (write_byte_WF _ _ _ hwf (hlt (addr, bp0) (by simp)) (by norm_num))
      (fun p hp => hlt p (by simp [hp]))


lemma install_breakpoints_preserves (mem : Mem) (bps : BpMap) (a : Nat)
    (hwf : MemWF mem) (hlt : ∀ p ∈ bps, p.1 < U64_LIMIT) (ha : a < U64_LIMIT)
    (hna : a ∉ bps.map Prod.fst) :
    byte_at (install_breakpoints mem bps).1 a = byte_at mem a := by
  induction bps generalizing mem with
  | nil => rfl
  | cons hd tl ih =>
    obtain ⟨addr, bp0⟩ := hd
    simp only [install_breakpoints]
    have hne : a ≠ addr := by
      intro hcon
      exact hna (by simp [hcon])
    rw [ih _ (write_byte_WF _ _ _ hwf (hlt (addr, bp0) (by simp)) (by norm_num))
      (fun p hp => hlt p (by simp [hp])) (fun hmem => hna (by simp [hmem]))]
    exact write_byte_frame mem addr a 0xcc hwf (hlt (addr, bp0) (by simp)) ha
      (by norm_num) hne


lemma install_breakpoints_patches (mem : Mem) (bps : BpMap)
    (hwf : MemWF mem) (hnd : (bps.map Prod.fst).Nodup)
    (hlt : ∀ p ∈ bps, p.1 < U64_LIMIT) :
    ∀ a, (bpGet bps a).isSome →
      bpGet (install_breakpoints mem bps).2 a = some ⟨a, byte_at mem a⟩ ∧
      byte_at (install_breakpoints mem bps).1 a = 0xcc := by
  induction bps generalizing mem with
  | nil => intro a h; simp [bpGet] at h
  | cons hd tl ih =>
    obtain ⟨addr, bp0⟩ := hd
    intro a hsome
    have haddr : addr < U64_LIMIT := hlt (addr, bp0) (by simp)
    have hwf' : MemWF (write_byte mem addr 0xcc).mem :=
      write_byte_WF _ _ _ hwf haddr (by norm_num)
    have hnd' : (tl.map Prod.fst).Nodup := by
      simpa using hnd.of_cons
    have hlt' : ∀ p ∈ tl, p.1 < U64_LIMIT := fun p hp => hlt p (by simp [hp])
    have hnin : addr ∉ tl.map Prod.fst := by
      have := hnd
      simp only [List.map_cons, List.nodup_cons] at this
      exact this.1
    by_cases hak : addr = a
    · subst hak
      constructor
      · simp [install_breakpoints, bpGet, write_byte_orig]
      · simp only [install_breakpoints]
        rw [install_breakpoints_preserves _ tl addr hwf' hlt' haddr hnin]
        exact write_byte_get mem addr 0xcc hwf haddr (by norm_num)
    · have hsome' : (bpGet tl a).isSome := by
        simpa [bpGet, hak] using hsome
      have ha : a < U64_LIMIT := by
        have hmem := bpGet_isSome_mem tl a hsome'
        obtain ⟨p, hp, hpa⟩ := List.mem_map.mp hmem
        rw [← hpa]
        exact hlt' p hp
      have := ih _ hwf' hnd' hlt' a hsome'
      constructor
      · have hstep : bpGet (install_breakpoints mem ((addr, bp0) :: tl)).2 a =
            bpGet (install_breakpoints (write_byte mem addr 0xcc).mem tl).2 a := by
          simp [install_breakpoints, bpGet, hak]
        rw [hstep, this.1,
          write_byte_frame mem addr a 0xcc hwf haddr ha (by norm_num) (fun h => hak h.symm)]
      · simp only [install_breakpoints]
        exact this.2


/-- C3: `Inferior::new` returns a traced process only when spawn succeeds and
the first blocking wait reports a `SIGTRAP` stop; any other outcome returns
`none` with no process retained; and on success it patches the trap opcode
`0xcc` at every breakpoint-table address and records each original byte before
returning. -/
theorem inferior_new_spec (spawn_ok : Bool) (first_wait : Option WaitStatus)
    (mem : Mem) (bps : BpMap) :
    (spawn_ok = false → inferior_new spawn_ok first_wait mem bps = none) ∧
    (first_wait ≠ some (WaitStatus.Stopped Signal.SIGTRAP) →
      inferior_new spawn_ok first_wait mem bps = none) ∧
    (spawn_ok = true → first_wait = some (WaitStatus.Stopped Signal.SIGTRAP) →
      inferior_new spawn_ok first_wait mem bps = some (install_breakpoints mem bps)) ∧
    (MemWF mem → (bps.map Prod.fst).Nodup → (∀ p ∈ bps, p.1 < U64_LIMIT) →
      ∀ a, (bpGet bps a).isSome →
        bpGet (install_breakpoints mem bps).2 a = some ⟨a, byte_at mem a⟩ ∧
        byte_at (install_breakpoints mem bps).1 a = 0xcc) := by
  refine ⟨?_, ?_, ?_, ?_⟩
  · intro h
    simp [inferior_new, h]
  · intro h
    cases hsp : spawn_ok with
    | false => simp [inferior_new]
    | true =>
      simp only [inferior_new, if_pos rfl]
      cases first_wait with
      | none => rfl
      | some w =>
        cases w with
        | Stopped s =>
          cases s with
          | SIGTRAP => exact absurd rfl h
          | SIGSEGV => rfl
          | SIGINT => rfl
        | Exited c => rfl
        | Signaled s => rfl
  · intro h1 h2
    subst h1
    subst h2
    rfl
  · intro hwf hnd hlt a hsome
    exact install_breakpoints_patches mem bps hwf hnd hlt a hsome


/-- Witness for C3: a failed spawn and a non-trap first stop both yield no
process, while a clean trap stop installs the single breakpoint at address 4,
recording the original byte of an all-zero memory and patching `0xcc`. -/
theorem inferior_new_spec_witness :
    inferior_new false (some (WaitStatus.Stopped Signal.SIGTRAP)) (fun _ => 0) [] = none ∧
    inferior_new true (some (WaitStatus.Stopped Signal.SIGSEGV)) (fun _ => 0) [] = none ∧
    inferior_new true (some (WaitStatus.Stopped Signal.SIGTRAP)) (fun _ => 0) [(4, ⟨4, 7⟩)] =
      some (install_breakpoints (fun _ => 0) [(4, ⟨4, 7⟩)]) ∧
    (bpGet (install_breakpoints (fun _ => 0) [(4, ⟨4, 7⟩)]).2 4 =
        some ⟨4, byte_at (fun _ => 0) 4⟩ ∧
      byte_at (install_breakpoints (fun _ => 0) [(4, ⟨4, 7⟩)]).1 4 = 0xcc) :=
  ⟨(inferior_new_spec false (some (WaitStatus.Stopped Signal.SIGTRAP)) (fun _ => 0) []).1 rfl,
   (inferior_new_spec true (some (WaitStatus.Stopped Signal.SIGSEGV)) (fun _ => 0) []).2.1
     (by decide),
   (inferior_new_spec true (some (WaitStatus.Stopped Signal.SIGTRAP)) (fun _ => 0)
     [(4, ⟨4, 7⟩)]).2.2.1 rfl rfl,
   (inferior_new_spec true (some (WaitStatus.Stopped Signal.SIGTRAP)) (fun _ => 0)
     [(4, ⟨4, 7⟩)]).2.2.2
     (by intro a; show (0 : Nat) < U64_LIMIT; decide)
     (by decide) (by decide) 4 (by decide)⟩


/-- C4: the unwinder emits frames innermost first: it resolves the current
instruction pointer to a function and line and emits that frame; it stops when
the resolved function is `"main"`; otherwise it continues with the word read
at `frame base + 8` as the new instruction pointer and the word read at the
frame base as the new frame base. -/
theorem print_backtrace_unwind (get_line : Nat → Option Nat)
    (get_func : Nat → Option String) (read_mem : Nat → Option Nat)
    (fuel ip bp line : Nat) (func : String)
    (hl : get_line ip = some line) (hf : get_func ip = some func) :
    (func = "main" →
      print_backtrace get_line get_func read_mem (fuel + 1) ip bp =
        BtResult.ok [⟨func, line⟩]) ∧
    (func ≠ "main" → ∀ ip2 bp2, read_mem (bp + 8) = some ip2 → read_mem bp = some bp2 →
      print_backtrace get_line get_func read_mem (fuel + 1) ip bp =
        btCons ⟨func, line⟩ (print_backtrace get_line get_func read_mem fuel ip2 bp2)) := by
  constructor
  · intro hm
    subst hm
    simp [print_backtrace, hl, hf]
  · intro hm ip2 bp2 h1 h2
    simp [print_backtrace, hl, hf, hm, h1, h2]


/-- Witness for C4: a one-frame walk that stops at `"main"`, and a step of a
walk through a non-`"main"` frame that follows the frame-pointer chain. -/
theorem print_backtrace_unwind_witness :
    print_backtrace (fun _ => some 3) (fun _ => some "main") (fun _ => some 0) 1 7 16 =
      BtResult.ok [⟨"main", 3⟩] ∧
    print_backtrace (fun _ => some 3) (fun _ => some "g") (fun a => some (a + 2)) 1 7 16 =
      btCons ⟨"g", 3⟩
        (print_backtrace (fun _ => some 3) (fun _ => some "g") (fun a => some (a + 2)) 0 26 18) :=
  ⟨(print_backtrace_unwind (fun _ => some 3) (fun _ => some "main") (fun _ => some 0)
      0 7 16 3 "main" rfl rfl).1 rfl,
   (print_backtrace_unwind (fun _ => some 3) (fun _ => some "g") (fun a => some (a + 2))
      0 7 16 3 "g" rfl rfl).2 (by decide) 26 18 rfl rfl⟩


lemma bpGet_replace (m : BpMap) (k : Nat) (v : Breakpoint)
    (h : (bpGet m k).isSome) :
    bpGet (m.map (fun p => if p.1 = k then (k, v) else p)) k = some v := by
  induction m with
  | nil => simp [bpGet] at h
  | cons hd tl ih =>
    obtain ⟨k0, v0⟩ := hd
    simp only [List.map_cons]
    by_cases hk : k0 = k
    · subst hk
      rw [show (if ((k0, v0) : Nat × Breakpoint).1 = k0 then (k0, v) else (k0, v0)) = (k0, v)
          from if_pos rfl]
      simp [bpGet]
    · rw [show (if ((k0, v0) : Nat × Breakpoint).1 = k then (k, v) else (k0, v0)) = (k0, v0)
          from if_neg hk]
      simp only [bpGet, if_neg hk] at h ⊢
      exact ih h


lemma bpGet_bpInsert_self (m : BpMap) (k : Nat) (v : Breakpoint) :
    bpGet (bpInsert m k v) k = some v := by
  unfold bpInsert
  split
  · next h => exact bpGet_replace m k v h
  · simp [bpGet]


lemma bpInsert_present (m : BpMap) (k : Nat) (v : Breakpoint)
    (h : (bpGet m k).isSome) :
    bpInsert m k v = m.map (fun p => if p.1 = k then (k, v) else p) := by
  unfold bpInsert
  rw [if_pos h]


lemma bpInsert_length_of_present (m : BpMap) (k : Nat) (v : Breakpoint)
    (h : (bpGet m k).isSome) :
    (bpInsert m k v).length = m.length := by
  rw [bpInsert_present m k v h, List.length_map]


lemma replace_replace (m : BpMap) (k : Nat) (v : Breakpoint) :
    ((m.map (fun p => if p.1 = k then (k, v) else p)).map
        (fun p => if p.1 = k then (k, v) else p))
      = m.map (fun p => if p.1 = k then (k, v) else p) := by
  rw [List.map_map]
  apply List.map_congr_left
  intro p _
  by_cases hk : p.1 = k <;> simp [Function.comp, hk]


lemma replace_absent (m : BpMap) (k : Nat) (v : Breakpoint)
    (h : bpGet m k = none) :
    m.map (fun p => if p.1 = k then (k, v) else p) = m := by
  induction m with
  | nil => rfl
  | cons hd tl ih =>
    obtain ⟨k0, v0⟩ := hd
    by_cases hk : k0 = k
    · simp [bpGet, hk] at h
    · simp only [bpGet, if_neg hk] at h
      simp [hk, ih h]


lemma bpInsert_idem (m : BpMap) (k : Nat) (v : Breakpoint) :
    bpInsert (bpInsert m k v) k v = bpInsert m k v := by
  have h2 : (bpGet (bpInsert m k v) k).isSome := by
    rw [bpGet_bpInsert_self]
    rfl
  rw [bpInsert_present _ _ _ h2]
  by_cases h : (bpGet m k).isSome
  · rw [bpInsert_present m k v h, replace_replace]
  · have hnone : bpGet m k = none := Option.not_isSome_iff_eq_none.mp h
    have hcons : bpInsert m k v = (k, v) :: m := by
      unfold bpInsert
      rw [if_neg h]
    rw [hcons]
    simp only [List.map_cons]
    simp [replace_absent m k v hnone]


/-- C5 counterexample: with a tracked live process over all-zero memory,
setting the same breakpoint twice changes the table entry — the second call
reads back the already-patched `0xcc` as the "original" byte and stores it, so
the operation is not idempotent and the saved original byte is no longer the
pre-patch byte. -/
theorem breakpoint_arm_not_idempotent :
    (breakpoint_arm 0 (breakpoint_arm 0
        ⟨InferiorTracking.tracked true, fun _ => 0, []⟩)).breakpoints ≠
      (breakpoint_arm 0 ⟨InferiorTracking.tracked true, fun _ => 0, []⟩).breakpoints := by
  decide


/-- C5 (amended): setting a breakpoint at the same address twice never creates
a second table entry (addresses are unique keys, the second call is an
update); while no process is tracked the second call is an exact no-op; while
a live process is tracked the second call overwrites the entry's saved byte
with the trap byte `0xcc`, so the original byte is no longer restorable from
the table. -/
theorem breakpoint_arm_twice (st : SessionState) (loc : Nat)
    (hwf : MemWF st.mem) (hloc : loc < U64_LIMIT) :
    ((breakpoint_arm loc (breakpoint_arm loc st)).breakpoints.length =
      (breakpoint_arm loc st).breakpoints.length) ∧
    (st.inferior = InferiorTracking.noInferior →
      breakpoint_arm loc (breakpoint_arm loc st) = breakpoint_arm loc st) ∧
    (st.inferior = InferiorTracking.tracked true →
      bpGet (breakpoint_arm loc (breakpoint_arm loc st)).breakpoints loc =
        some ⟨loc, 0xcc⟩) := by
  refine ⟨?_, ?_, ?_⟩
  · rcases hst : st.inferior with _ | alive
    · have h1 : breakpoint_arm loc st =
          { st with breakpoints := bpInsert st.breakpoints loc ⟨loc, 0⟩ } := by
        unfold breakpoint_arm
        rw [hst]
      rw [h1]
      have h2 : breakpoint_arm loc { st with breakpoints := bpInsert st.breakpoints loc ⟨loc, 0⟩ } =
          { st with breakpoints :=
              bpInsert (bpInsert st.breakpoints loc ⟨loc, 0⟩) loc ⟨loc, 0⟩ } := by
        unfold breakpoint_arm
        rw [show ({ st with breakpoints := bpInsert st.breakpoints loc ⟨loc, 0⟩ } :
            SessionState).inferior = st.inferior from rfl, hst]
      rw [h2]
      exact bpInsert_length_of_present _ _ _ (by rw [bpGet_bpInsert_self]; rfl)
    · cases alive with
      | false =>
        have h1 : breakpoint_arm loc st = st := by
          unfold breakpoint_arm
          rw [hst]
        rw [h1, h1]
      | true =>
        have h1 : breakpoint_arm loc st =
            { st with
              mem := (write_byte st.mem loc 0xcc).mem,
              breakpoints := bpInsert st.breakpoints loc
                ⟨loc, (write_byte st.mem loc 0xcc).orig_byte⟩ } := by
          unfold breakpoint_arm
          rw [hst]
        rw [h1]
        have h2 : ∀ mem2 bps2, (bpGet bps2 loc).isSome →
            (breakpoint_arm loc
              { st with mem := mem2, breakpoints := bps2 }).breakpoints.length =
              bps2.length := by
          intro mem2 bps2 hsome
          unfold breakpoint_arm
          rw [show ({ st with mem := mem2, breakpoints := bps2 } :
              SessionState).inferior = st.inferior from rfl, hst]
          exact bpInsert_length_of_present _ _ _ hsome
        exact h2 _ _ (by rw [bpGet_bpInsert_self]; rfl)
  · intro hst
    have h1 : breakpoint_arm loc st =
        { st with breakpoints := bpInsert st.breakpoints loc ⟨loc, 0⟩ } := by
      unfold breakpoint_arm
      rw [hst]
    rw [h1]
    have h2 : breakpoint_arm loc { st with breakpoints := bpInsert st.breakpoints loc ⟨loc, 0⟩ } =
        { st with breakpoints :=
            bpInsert (bpInsert st.breakpoints loc ⟨loc, 0⟩) loc ⟨loc, 0⟩ } := by
      unfold breakpoint_arm
      rw [show ({ st with breakpoints := bpInsert st.breakpoints loc ⟨loc, 0⟩ } :
          SessionState).inferior = st.inferior from rfl, hst]
    rw [h2, bpInsert_idem]
  · intro hst
    have h1 : breakpoint_arm loc st =
        { st with
          mem := (write_byte st.mem loc 0xcc).mem,
          breakpoints := bpInsert st.breakpoints loc
            ⟨loc, (write_byte st.mem loc 0xcc).orig_byte⟩ } := by
      unfold breakpoint_arm
      rw [hst]
    rw [h1]
    have h2 : breakpoint_arm loc
        { st with
          mem := (write_byte st.mem loc 0xcc).mem,
          breakpoints := bpInsert st.breakpoints loc
            ⟨loc, (write_byte st.mem loc 0xcc).orig_byte⟩ } =
        { st with
          mem := (write_byte (write_byte st.mem loc 0xcc).mem loc 0xcc).mem,
          breakpoints := bpInsert
            (bpInsert st.breakpoints loc ⟨loc, (write_byte st.mem loc 0xcc).orig_byte⟩)
            loc ⟨loc, (write_byte (write_byte st.mem loc 0xcc).mem loc 0xcc).orig_byte⟩ } := by
      unfold breakpoint_arm
      rw [show ({ st with
          mem := (write_byte st.mem loc 0xcc).mem,
          breakpoints := bpInsert st.breakpoints loc
            ⟨loc, (write_byte st.mem loc 0xcc).orig_byte⟩ } :
          SessionState).inferior = st.inferior from rfl, hst]
    rw [h2]
    have horig : (write_byte (write_byte st.mem loc 0xcc).mem loc 0xcc).orig_byte = 0xcc := by
      rw [write_byte_orig]
      exact write_byte_get st.mem loc 0xcc hwf hloc (by norm_num)
    rw [horig]
    exact bpGet_bpInsert_self _ _ _


/-- Witness for C5's amended theorem at concrete states: a no-inferior session
(second call is a no-op) and a live session (second call stores `0xcc`). -/
theorem breakpoint_arm_twice_witness :
    (breakpoint_arm 0 (breakpoint_arm 0
        ⟨InferiorTracking.noInferior, fun _ => 0, []⟩)).breakpoints.length =
      (breakpoint_arm 0 ⟨InferiorTracking.noInferior, fun _ => 0, []⟩).breakpoints.length ∧
    breakpoint_arm 0 (breakpoint_arm 0 ⟨InferiorTracking.noInferior, fun _ => 0, []⟩) =
      breakpoint_arm 0 ⟨InferiorTracking.noInferior, fun _ => 0, []⟩ ∧
    bpGet (breakpoint_arm 0 (breakpoint_arm 0
        ⟨InferiorTracking.tracked true, fun _ => 0, []⟩)).breakpoints 0 =
      some ⟨0, 0xcc⟩ :=
  ⟨(breakpoint_arm_twice ⟨InferiorTracking.noInferior, fun _ => 0, []⟩ 0
      (by intro a; show (0 : Nat) < U64_LIMIT; decide) (by decide)).1,
   (breakpoint_arm_twice ⟨InferiorTracking.noInferior, fun _ => 0, []⟩ 0
      (by intro a; show (0 : Nat) < U64_LIMIT; decide) (by decide)).2.1 rfl,
   (breakpoint_arm_twice ⟨InferiorTracking.tracked true, fun _ => 0, []⟩ 0
      (by intro a; show (0 : Nat) < U64_LIMIT; decide) (by decide)).2.2 rfl⟩


/-- C6 counterexample: with a tracked dead inferior — a state in which no
process is running (the Continue arm itself reports "Inferior process is not
running" on it) — a breakpoint request stores nothing: the table stays empty
and the whole state is returned unchanged, instead of storing a deferred
entry. -/
theorem breakpoint_request_dropped :
    (breakpoint_arm 0 ⟨InferiorTracking.tracked false, fun _ => 0, []⟩).breakpoints = [] ∧
    breakpoint_arm 0 ⟨InferiorTracking.tracked false, fun _ => 0, []⟩ =
      ⟨InferiorTracking.tracked false, fun _ => 0, []⟩ :=
  ⟨rfl, rfl⟩


/-- C6 (amended): a breakpoint request while the session tracks no inferior
stores the entry unpatched with the sentinel original byte `0` and leaves the
target memory untouched, and the deferred patch is performed at the next
launch (the install loop patches it and records the actual original byte); a
request while the tracked inferior is alive patches the target immediately and
records the actual original byte; a request while the session tracks a dead
inferior is dropped entirely. -/
theorem breakpoint_request_deferral (st : SessionState) (loc : Nat)
    (hwf : MemWF st.mem) (hloc : loc < U64_LIMIT) :
    (st.inferior = InferiorTracking.noInferior →
      (breakpoint_arm loc st).breakpoints = bpInsert st.breakpoints loc ⟨loc, 0⟩ ∧
      (breakpoint_arm loc st).mem = st.mem ∧
      (∀ mem2, MemWF mem2 →
        ((breakpoint_arm loc st).breakpoints.map Prod.fst).Nodup →
        (∀ p ∈ (breakpoint_arm loc st).breakpoints, p.1 < U64_LIMIT) →
        bpGet (install_breakpoints mem2 (breakpoint_arm loc st).breakpoints).2 loc =
          some ⟨loc, byte_at mem2 loc⟩ ∧
        byte_at (install_breakpoints mem2 (breakpoint_arm loc st).breakpoints).1 loc = 0xcc)) ∧
    (st.inferior = InferiorTracking.tracked true →
      bpGet (breakpoint_arm loc st).breakpoints loc = some ⟨loc, byte_at st.mem loc⟩ ∧
      byte_at (breakpoint_arm loc st).mem loc = 0xcc) ∧
    (st.inferior = InferiorTracking.tracked false → breakpoint_arm loc st = st) := by
  refine ⟨?_, ?_, ?_⟩
  · intro hst
    have h1 : breakpoint_arm loc st =
        { st with breakpoints := bpInsert st.breakpoints loc ⟨loc, 0⟩ } := by
      unfold breakpoint_arm
      rw [hst]
    rw [h1]
    refine ⟨rfl, rfl, ?_⟩
    intro mem2 hwf2 hnd2 hlt2
    exact install_breakpoints_patches mem2 _ hwf2 hnd2 hlt2 loc
      (by rw [bpGet_bpInsert_self]; rfl)
  · intro hst
    have h1 : breakpoint_arm loc st =
        { st with
          mem := (write_byte st.mem loc 0xcc).mem,
          breakpoints := bpInsert st.breakpoints loc
            ⟨loc, (write_byte st.mem loc 0xcc).orig_byte⟩ } := by
      unfold breakpoint_arm
      rw [hst]
    rw [h1]
    constructor
    · rw [write_byte_orig]
      exact bpGet_bpInsert_self _ _ _
    · exact write_byte_get st.mem loc 0xcc hwf hloc (by norm_num)
  · intro hst
    unfold breakpoint_arm
    rw [hst]


/-- Witness for C6's amended theorem at concrete states: a deferred entry with
sentinel byte (no inferior), an immediate patch (live inferior) and a dropped
request (dead tracked inferior). -/
theorem breakpoint_request_deferral_witness :
    ((breakpoint_arm 3 ⟨InferiorTracking.noInferior, fun _ => 0, []⟩).breakpoints =
      bpInsert [] 3 ⟨3, 0⟩) ∧
    (bpGet (breakpoint_arm 3 ⟨InferiorTracking.tracked true, fun _ => 0, []⟩).breakpoints 3 =
      some ⟨3, byte_at (fun _ => 0) 3⟩ ∧
     byte_at (breakpoint_arm 3 ⟨InferiorTracking.tracked true, fun _ => 0, []⟩).mem 3 = 0xcc) ∧
    breakpoint_arm 3 ⟨InferiorTracking.tracked false, fun _ => 0, []⟩ =
      ⟨InferiorTracking.tracked false, fun _ => 0, []⟩ :=
  ⟨((breakpoint_request_deferral ⟨InferiorTracking.noInferior, fun _ => 0, []⟩ 3
      (by intro a; show (0 : Nat) < U64_LIMIT; decide) (by decide)).1 rfl).1,
   (breakpoint_request_deferral ⟨InferiorTracking.tracked true, fun _ => 0, []⟩ 3
      (by intro a; show (0 : Nat) < U64_LIMIT; decide) (by decide)).2.1 rfl,
   (breakpoint_request_deferral ⟨InferiorTracking.tracked false, fun _ => 0, []⟩ 3
      (by intro a; show (0 : Nat) < U64_LIMIT; decide) (by decide)).2.2 rfl⟩


/-- C7: with no process started (`self.inferior` is `None`), and equally after
a successful kill has cleared the tracked inferior, the Continue and Backtrace
arms panic through `Option::unwrap` instead of reporting a recoverable
no-process error. -/
theorem resume_backtrace_no_process_panics :
    continue_arm InferiorTracking.noInferior = ArmOutcome.panicked ∧
    backtrace_arm InferiorTracking.noInferior (BtResult.ok []) = ArmOutcome.panicked ∧
    (kill_inferior ⟨InferiorTracking.tracked true, fun _ => 0, []⟩ true).inferior =
      InferiorTracking.noInferior ∧
    continue_arm
      (kill_inferior ⟨InferiorTracking.tracked true, fun _ => 0, []⟩ true).inferior =
      ArmOutcome.panicked :=
  ⟨rfl, rfl, rfl, rfl⟩


/-- C8: a breakpoint specification naming an unknown function (or an unknown
source line) makes the Symbol Resolver lookup return nothing, and the
Breakpoint arm panics through `unwrap` instead of reporting a resolve error:
the debugger crashes before any state change. -/
theorem breakpoint_unknown_spec_panics :
    breakpoint_cmd (fun _ => none) (fun _ => none) ['f', 'o', 'o']
      ⟨InferiorTracking.noInferior, fun _ => 0, []⟩ = BreakpointCmdResult.panicked ∧
    breakpoint_cmd (fun _ => none) (fun _ => none) ['4', '2']
      ⟨InferiorTracking.noInferior, fun _ => 0, []⟩ = BreakpointCmdResult.panicked :=
  ⟨rfl, rfl⟩


/-- C9: a failing target-memory read does abort the unwind with a propagated
error (`memErr`), but the Backtrace arm's `.expect("No trace")` then panics
the whole debugger instead of reporting the failure for that request. -/
theorem backtrace_read_failure_crashes :
    print_backtrace (fun _ => some 1) (fun _ => some "f") (fun _ => none) 1 100 200 =
      BtResult.memErr ∧
    backtrace_arm (InferiorTracking.tracked true) BtResult.memErr = ArmOutcome.panicked :=
  ⟨rfl, rfl⟩


/-- C10: teardown is atomic at the session boundary: the tracked inferior is
cleared exactly when `kill` succeeds, the breakpoint table is untouched either
way, and a failed kill leaves the whole state unchanged. -/
theorem kill_inferior_atomic (st : SessionState) :
    (kill_inferior st true).inferior = InferiorTracking.noInferior ∧
    (kill_inferior st true).breakpoints = st.breakpoints ∧
    (kill_inferior st true).mem = st.mem ∧
    kill_inferior st false = st :=
  ⟨rfl, rfl, rfl, rfl⟩


end Deet
